import Mathlib

/-!
Verification of the Podcast-creator repository ("synthetic radio host" pipeline
in `synthetic_radio_host.py` and the Teams message extractor in
`Teams extractor/teams_message_extractor.py`).

Python strings are modelled as `List Char` (called `Str` below); the Python
string operations used by the code (`strip`, `split`, `startswith`, `replace`,
`' '.join`, `urllib.parse.unquote`, ...) are given faithful executable
translations over that type.  External HTTP calls (the ElevenLabs / OpenAI TTS
endpoints and the Microsoft Graph endpoints) and the external audio toolchain
(pydub decode / normalize) are modelled as explicit oracle parameters: a run of
the program corresponds to a choice of oracles, so universally quantified
theorems over the oracles quantify over all possible behaviours of the remote
services.
-/

namespace Podcast

/-- Python `str` values, modelled as lists of characters. -/
abbrev Str := List Char

/-- The whitespace characters stripped by Python's `str.strip()`
(ASCII subset: space, tab, newline, carriage return, vertical tab, form feed). -/
def isSpacePy (c : Char) : Bool :=
  decide (c = ' ' ∨ c = '\t' ∨ c = '\n' ∨ c = '\r' ∨ c = '\x0b' ∨ c = '\x0c')

/-- Python `str.lstrip()`. -/
def lstrip (s : Str) : Str := s.dropWhile isSpacePy

/-- Python `str.rstrip()`. -/
def rstrip (s : Str) : Str := (s.reverse.dropWhile isSpacePy).reverse

/-- Python `str.strip()`: drop whitespace from both ends. -/
def strip (s : Str) : Str := rstrip (lstrip s)

/-- Python `s.split(c)` for a single-character separator: splits on every
occurrence, keeping empty pieces (so the result is always non-empty). -/
def splitOnChar (c : Char) : Str → List Str
  | [] => [[]]
  | x :: xs =>
    if x = c then [] :: splitOnChar c xs
    else
      match splitOnChar c xs with
      | h :: t => (x :: h) :: t
      | [] => [[x]]

/-- Python `s.split(c, 1)`: split at the first occurrence of `c`, if any. -/
def splitFirst (c : Char) : Str → Str × Option Str
  | [] => ([], none)
  | x :: xs =>
    if x = c then ([], some xs)
    else
      let r := splitFirst c xs
      (x :: r.1, r.2)

/-- Fuel-driven kernel of `replaceAll` (the fuel only serves termination:
it is always called with at least the string's length, which the scan never
exceeds). -/
def replaceAllGo (pat repl : Str) : Nat → Str → Str
  | _, [] => []
  | 0, s => s
  | fuel + 1, c :: rest =>
    if pat ≠ [] ∧ pat.isPrefixOf (c :: rest) then
      repl ++ replaceAllGo pat repl fuel (List.drop (pat.length - 1) rest)
    else
      c :: replaceAllGo pat repl fuel rest

theorem replaceAllGo_fuel_irrel (pat repl : Str) :
    ∀ f1 : Nat, ∀ s : Str, ∀ f2 : Nat, s.length ≤ f1 → s.length ≤ f2 →
      replaceAllGo pat repl f1 s = replaceAllGo pat repl f2 s := by
  intro f1
  induction f1 with
  | zero =>
    intro s f2 h1 _
    cases s with
    | nil => cases f2 <;> rfl
    | cons c rest => simp at h1
  | succ f ih =>
    intro s f2 h1 h2
    cases s with
    | nil => cases f2 <;> rfl
    | cons c rest =>
      cases f2 with
      | zero => simp at h2
      | succ f2' =>
        have hr1 : rest.length ≤ f := by simp at h1; omega
        have hr2 : rest.length ≤ f2' := by simp at h2; omega
        have hd1 : (List.drop (pat.length - 1) rest).length ≤ f := by
          simp only [List.length_drop]; omega
        have hd2 : (List.drop (pat.length - 1) rest).length ≤ f2' := by
          simp only [List.length_drop]; omega
        simp only [replaceAllGo]
        by_cases hp : pat ≠ [] ∧ pat.isPrefixOf (c :: rest)
        · rw [if_pos hp, if_pos hp, ih _ _ hd1 hd2]
        · rw [if_neg hp, if_neg hp, ih rest f2' hr1 hr2]

/-- Python `s.replace(old, new)`: replace every (leftmost, non-overlapping)
occurrence of `pat` by `repl`.  (Python's special behaviour for an empty
pattern is not reproduced; the program only ever replaces non-empty patterns,
and for `pat = []` this function is the identity.) -/
def replaceAll (pat repl : Str) (s : Str) : Str :=
  replaceAllGo pat repl s.length s

theorem replaceAll_nil (pat repl : Str) : replaceAll pat repl [] = [] := rfl

/-- The recursive unfolding of `replaceAll`, fuel eliminated. -/
theorem replaceAll_cons (pat repl : Str) (c : Char) (rest : Str) :
    replaceAll pat repl (c :: rest) =
      if pat ≠ [] ∧ pat.isPrefixOf (c :: rest) then
        repl ++ replaceAll pat repl (List.drop (pat.length - 1) rest)
      else
        c :: replaceAll pat repl rest := by
  show replaceAllGo pat repl (rest.length + 1) (c :: rest) = _
  simp only [replaceAllGo]
  by_cases hp : pat ≠ [] ∧ pat.isPrefixOf (c :: rest)
  · rw [if_pos hp, if_pos hp,
      replaceAllGo_fuel_irrel pat repl rest.length (List.drop (pat.length - 1) rest)
        (List.drop (pat.length - 1) rest).length
        (by simp only [List.length_drop]; omega) le_rfl]
    rfl
  · rw [if_neg hp, if_neg hp]
    rfl

/-- `containsSeq pat s` decides whether `pat` occurs as a contiguous
subsequence of `s` (Python's `pat in s`). -/
def containsSeq (pat : Str) : Str → Bool
  | [] => pat.isPrefixOf []
  | c :: rest => pat.isPrefixOf (c :: rest) || containsSeq pat rest

/-- Python `' '.join(pieces)`. -/
def joinSp : List Str → Str
  | [] => []
  | [t] => t
  | t :: ts => t ++ ' ' :: joinSp ts

/- ------------------------------------------------------------------ -/
/- Script Segmenter: `parse_script` from `synthetic_radio_host.py`.    -/
/- ------------------------------------------------------------------ -/

/-- The first recognized speaker name, `"Person A"`. -/
def strA : Str := "Person A".data

/-- The second recognized speaker name, `"Person B"`. -/
def strB : Str := "Person B".data

/-- The first recognized speaker label, `"Person A:"`. -/
def labA : Str := "Person A:".data

/-- The second recognized speaker label, `"Person B:"`. -/
def labB : Str := "Person B:".data

/-- `segments.append((current_speaker, ' '.join(current_text)))` guarded by
Python's `if current_speaker and current_text:` (both truthinesses: the
speaker is not `None`, the text list is non-empty). -/
def emitSeg (segments : List (Str × Str)) (cs : Option Str) (ct : List Str) :
    List (Str × Str) :=
  match cs with
  | some sp => if ct = [] then segments else segments ++ [(sp, joinSp ct)]
  | none => segments

/-- The body of `parse_script`'s `for line in lines:` loop, with the loop
state (`segments`, `current_speaker`, `current_text`) passed explicitly;
the final clause is the post-loop emission of the last open segment. -/
def parseLoop (segments : List (Str × Str)) (cs : Option Str) (ct : List Str) :
    List Str → List (Str × Str)
  | [] => emitSeg segments cs ct
  | line :: rest =>
    let l := strip line
    if l = [] then parseLoop segments cs ct rest
    else if labA.isPrefixOf l then
      parseLoop (emitSeg segments cs ct) (some strA)
        [strip (replaceAll labA [] l)] rest
    else if labB.isPrefixOf l then
      parseLoop (emitSeg segments cs ct) (some strB)
        [strip (replaceAll labB [] l)] rest
    else
      match cs with
      | some _ => parseLoop segments cs (ct ++ [l]) rest
      | none => parseLoop segments cs ct rest

/-- `parse_script` from `synthetic_radio_host.py`: split the script into
lines on `'\n'` and run the scanning loop with empty initial state. -/
def parse_script (script : Str) : List (Str × Str) :=
  parseLoop [] none [] (splitOnChar '\n' script)

/- Spec-side segmenter, used to state claim C6.  It follows the spec's
algorithm description: scan lines top to bottom, a recognized label line
opens a new segment (emitting the previous open one), non-empty non-label
lines extend the open segment, blank lines are skipped, lines before the
first label are discarded, and the last open segment is emitted at end of
input. -/

/-- Recognize a (stripped) line carrying one of the exactly two speaker
labels; returns the speaker together with the line's text after removing the
label (occurrences removed and the remainder stripped, as the source does). -/
def labelOf (l : Str) : Option (Str × Str) :=
  if labA.isPrefixOf l then some (strA, strip (replaceAll labA [] l))
  else if labB.isPrefixOf l then some (strB, strip (replaceAll labB [] l))
  else none

/-- Spec-side: accumulate the open segment for speaker `sp` (pieces `acc`)
until the next label line or end of input, emitting segments as they close. -/
def buildSeg (sp : Str) (acc : List Str) : List Str → List (Str × Str)
  | [] => [(sp, joinSp acc)]
  | line :: rest =>
    let l := strip line
    if l = [] then buildSeg sp acc rest
    else
      match labelOf l with
      | some (sp', t0) => (sp, joinSp acc) :: buildSeg sp' [t0] rest
      | none => buildSeg sp (acc ++ [l]) rest

/-- Spec-side segmenter over the list of lines: skip everything up to the
first recognized label, then build segments label by label. -/
def segmenterSpec : List Str → List (Str × Str)
  | [] => []
  | line :: rest =>
    let l := strip line
    if l = [] then segmenterSpec rest
    else
      match labelOf l with
      | some (sp, t0) => buildSeg sp [t0] rest
      | none => segmenterSpec rest

theorem parseLoop_some_eq_buildSeg (rest : List Str) :
    ∀ segments sp ct, ct ≠ [] →
      parseLoop segments (some sp) ct rest = segments ++ buildSeg sp ct rest := by
  induction rest with
  | nil =>
    intro segments sp ct hct
    simp [parseLoop, buildSeg, emitSeg, hct]
  | cons line rest ih =>
    intro segments sp ct hct
    simp only [parseLoop, buildSeg]
    by_cases hblank : strip line = []
    · simp [hblank, ih _ _ _ hct]
    · simp only [hblank, if_false]
      by_cases hA : labA.isPrefixOf (strip line)
      · simp [hA, labelOf, emitSeg, hct,
          ih (segments ++ [(sp, joinSp ct)]) strA [strip (replaceAll labA [] (strip line))]
            (by simp)]
      · by_cases hB : labB.isPrefixOf (strip line)
        · simp [hA, hB, labelOf, emitSeg, hct,
            ih (segments ++ [(sp, joinSp ct)]) strB [strip (replaceAll labB [] (strip line))]
              (by simp)]
        · simp [hA, hB, labelOf, ih segments sp (ct ++ [strip line]) (by simp)]

theorem parseLoop_none_eq_segmenterSpec (rest : List Str) :
    ∀ segments, parseLoop segments none [] rest = segments ++ segmenterSpec rest := by
  induction rest with
  | nil => intro segments; simp [parseLoop, segmenterSpec, emitSeg]
  | cons line rest ih =>
    intro segments
    simp only [parseLoop, segmenterSpec]
    by_cases hblank : strip line = []
    · simp [hblank, ih]
    · simp only [hblank, if_false]
      by_cases hA : labA.isPrefixOf (strip line)
      · simp [hA, labelOf, emitSeg,
          parseLoop_some_eq_buildSeg rest segments strA
            [strip (replaceAll labA [] (strip line))] (by simp)]
      · by_cases hB : labB.isPrefixOf (strip line)
        · simp [hA, hB, labelOf, emitSeg,
            parseLoop_some_eq_buildSeg rest segments strB
              [strip (replaceAll labB [] (strip line))] (by simp)]
        · simp [hA, hB, labelOf, ih]

/-- Claim C6: `parse_script` implements the spec's scanning algorithm (label
lines open segments and close the previous one, non-label lines extend the
open segment, blank lines are skipped, leading unlabeled lines are discarded,
the last open segment is emitted, text pieces are joined by single spaces);
in particular the transcript `"Person A: hi\nPerson B: hey\nyaar"` segments
to `[(Person A, "hi"), (Person B, "hey yaar")]`. -/
theorem c6_script_segmenter :
    (∀ script : Str, parse_script script = segmenterSpec (splitOnChar '\n' script)) ∧
    parse_script ("Person A: hi\nPerson B: hey\nyaar".data) =
      [(strA, "hi".data), (strB, "hey yaar".data)] := by
  constructor
  · intro script
    simpa using parseLoop_none_eq_segmenterSpec (splitOnChar '\n' script) []
  · decide

/- ------------------------------------------------------------------ -/
/- Claim C8: segmenter round-trip (corrected).                         -/
/- ------------------------------------------------------------------ -/

theorem splitOnChar_of_not_mem {c : Char} : ∀ {l : Str}, c ∉ l → splitOnChar c l = [l] := by
  intro l
  induction l with
  | nil => intro _; rfl
  | cons x xs ih =>
    intro h
    have hx : ¬(x = c) := fun he => h (he ▸ List.mem_cons_self x xs)
    have hxs : c ∉ xs := fun hm => h (List.mem_cons_of_mem x hm)
    simp only [splitOnChar, if_neg hx, ih hxs]

theorem replaceAll_of_not_contains {pat repl : Str} :
    ∀ {s : Str}, containsSeq pat s = false → replaceAll pat repl s = s := by
  intro s
  induction s with
  | nil => intro _; rfl
  | cons c rest ih =>
    intro h
    simp only [containsSeq, Bool.or_eq_false_iff] at h
    rw [replaceAll_cons, if_neg (by simp [h.1]), ih h.2]

theorem replaceAll_append_self {pat repl u : Str} (hp : pat ≠ []) :
    replaceAll pat repl (pat ++ u) = repl ++ replaceAll pat repl u := by
  cases pat with
  | nil => exact absurd rfl hp
  | cons p ps =>
    rw [List.cons_append, replaceAll_cons,
      if_pos ⟨hp, by simp only [List.isPrefixOf_iff_prefix]
                     exact (p :: ps).prefix_append u⟩]
    simp only [List.length_cons, Nat.add_sub_cancel]
    rw [List.drop_left]

theorem lstrip_of_head_not_space {c : Char} (h : isSpacePy c = false) (t : Str) :
    lstrip (c :: t) = c :: t := by
  simp [lstrip, List.dropWhile_cons, h]

theorem strip_eq_self_parts {t : Str} (h : strip t = t) : lstrip t = t ∧ rstrip t = t := by
  have hsuf : lstrip t <:+ t := List.dropWhile_suffix _
  have hlen1 : (rstrip (lstrip t)).length ≤ (lstrip t).length := by
    simp only [rstrip, List.length_reverse]
    calc ((lstrip t).reverse.dropWhile isSpacePy).length
        ≤ (lstrip t).reverse.length := (List.dropWhile_suffix _).length_le
      _ = (lstrip t).length := List.length_reverse _
  have hlen2 : (lstrip t).length ≤ t.length := (List.dropWhile_suffix _).length_le
  have hlen : (lstrip t).length = t.length := by
    have := congrArg List.length h
    simp only [strip] at this
    omega
  have hl : lstrip t = t := hsuf.eq_of_length hlen
  refine ⟨hl, ?_⟩
  have := h
  rw [strip, hl] at this
  exact this

theorem rstrip_append {a t : Str} (ht : rstrip t = t) (hne : t ≠ []) :
    rstrip (a ++ t) = a ++ t := by
  have hdw : t.reverse.dropWhile isSpacePy = t.reverse := by
    have := congrArg List.reverse ht
    rwa [rstrip, List.reverse_reverse] at this
  have hrevne : t.reverse ≠ [] := by simpa using hne
  rw [rstrip, List.reverse_append, List.dropWhile_append]
  rw [hdw]
  simp only [List.isEmpty_iff, hrevne, if_false]
  rw [List.reverse_append, List.reverse_reverse, List.reverse_reverse]

theorem strip_cons_space {t : Str} (hl : lstrip t = t) (hr : rstrip t = t) :
    strip (' ' :: t) = t := by
  have h1 : lstrip (' ' :: t) = t := by
    show List.dropWhile _ _ = t
    rw [List.dropWhile_cons]
    simp only [show isSpacePy ' ' = true from rfl, if_true]
    exact hl
  rw [strip, h1, hr]

/-- Step lemma: a line whose stripped form carries the `"Person A:"` label. -/
theorem parseLoop_stepA {segments : List (Str × Str)} {cs : Option Str} {ct : List Str}
    {line : Str} {rest : List Str}
    (h : strip line ≠ []) (hpre : labA.isPrefixOf (strip line) = true) :
    parseLoop segments cs ct (line :: rest) =
      parseLoop (emitSeg segments cs ct) (some strA)
        [strip (replaceAll labA [] (strip line))] rest := by
  simp [parseLoop, h, hpre]

/-- Step lemma: a line whose stripped form carries the `"Person B:"` label
(and not the `"Person A:"` one). -/
theorem parseLoop_stepB {segments : List (Str × Str)} {cs : Option Str} {ct : List Str}
    {line : Str} {rest : List Str}
    (h : strip line ≠ []) (hnA : labA.isPrefixOf (strip line) = false)
    (hpre : labB.isPrefixOf (strip line) = true) :
    parseLoop segments cs ct (line :: rest) =
      parseLoop (emitSeg segments cs ct) (some strB)
        [strip (replaceAll labB [] (strip line))] rest := by
  simp [parseLoop, h, hnA, hpre]

/-- Claim C8 is false as stated: `parse_script` can produce a segment whose
text contains the speaker's own label (coming from a continuation line), and
re-joining then re-segmenting strips that embedded label, changing the text.
Concretely, `"Person A: hi\nsee Person A: bye"` parses to the single segment
`(Person A, "hi see Person A: bye")`, but re-parsing
`"Person A: hi see Person A: bye"` does not give that segment back. -/
theorem c8_counterexample :
    parse_script ("Person A: hi\nsee Person A: bye".data) =
      [(strA, "hi see Person A: bye".data)] ∧
    parse_script (strA ++ ':' :: ' ' :: "hi see Person A: bye".data) ≠
      [(strA, "hi see Person A: bye".data)] := by
  constructor
  · decide
  · decide

/-- Claim C8 (amended): the round-trip holds for every produced segment
`(sp, t)` whose text `t` does not contain the speaker's own label `"sp:"`
and is already whitespace-stripped.  (Produced texts never contain a newline;
that fact is taken as a hypothesis here.  Texts produced from a label line
with empty remainder followed by continuation lines start with a space and
are not stripped, and continuation lines may embed the speaker's own label —
both cases genuinely break the round-trip, as the counterexample shows.) -/
theorem c8_roundtrip (sp t : Str) (hsp : sp = strA ∨ sp = strB)
    (hnl : '\n' ∉ t) (hst : strip t = t)
    (hcont : containsSeq (sp ++ [':']) t = false) :
    parse_script (sp ++ ':' :: ' ' :: t) = [(sp, t)] := by
  obtain ⟨hl, hr⟩ := strip_eq_self_parts hst
  rcases hsp with rfl | rfl
  · by_cases ht0 : t = []
    · subst ht0; decide
    · have hlabeq : strA ++ ':' :: ' ' :: t = labA ++ ' ' :: t := by
        rw [show labA = strA ++ [':'] from rfl]
        simp
      rw [hlabeq]
      have hnotmem : '\n' ∉ labA ++ ' ' :: t := by
        intro hmem
        rcases List.mem_append.mp hmem with h1 | h2
        · exact absurd h1 (by decide)
        · rcases List.mem_cons.mp h2 with h3 | h4
          · exact absurd h3 (by decide)
          · exact hnl h4
      have hlst : lstrip (labA ++ ' ' :: t) = labA ++ ' ' :: t := by
        rw [show labA ++ ' ' :: t = 'P' :: ("erson A:".data ++ ' ' :: t) from rfl]
        exact lstrip_of_head_not_space (by decide) _
      have hstr : strip (labA ++ ' ' :: t) = labA ++ ' ' :: t := by
        rw [strip, hlst, show labA ++ ' ' :: t = (labA ++ [' ']) ++ t by simp]
        exact rstrip_append hr ht0
      have hpre : labA.isPrefixOf (labA ++ ' ' :: t) = true := by
        simp only [List.isPrefixOf_iff_prefix]
        exact labA.prefix_append _
      have hcont' : containsSeq labA (' ' :: t) = false := by
        simp only [containsSeq, Bool.or_eq_false_iff]
        refine ⟨rfl, ?_⟩
        rw [show labA = strA ++ [':'] from rfl]
        exact hcont
      have hrepl : replaceAll labA [] (labA ++ ' ' :: t) = ' ' :: t := by
        rw [replaceAll_append_self (by decide), replaceAll_of_not_contains hcont']
        rfl
      unfold parse_script
      rw [splitOnChar_of_not_mem hnotmem,
        parseLoop_stepA (by rw [hstr]; simp) (by rw [hstr]; exact hpre),
        hstr, hrepl, strip_cons_space hl hr]
      simp [parseLoop, emitSeg, joinSp]
  · by_cases ht0 : t = []
    · subst ht0; decide
    · have hlabeq : strB ++ ':' :: ' ' :: t = labB ++ ' ' :: t := by
        rw [show labB = strB ++ [':'] from rfl]
        simp
      rw [hlabeq]
      have hnotmem : '\n' ∉ labB ++ ' ' :: t := by
        intro hmem
        rcases List.mem_append.mp hmem with h1 | h2
        · exact absurd h1 (by decide)
        · rcases List.mem_cons.mp h2 with h3 | h4
          · exact absurd h3 (by decide)
          · exact hnl h4
      have hlst : lstrip (labB ++ ' ' :: t) = labB ++ ' ' :: t := by
        rw [show labB ++ ' ' :: t = 'P' :: ("erson B:".data ++ ' ' :: t) from rfl]
        exact lstrip_of_head_not_space (by decide) _
      have hstr : strip (labB ++ ' ' :: t) = labB ++ ' ' :: t := by
        rw [strip, hlst, show labB ++ ' ' :: t = (labB ++ [' ']) ++ t by simp]
        exact rstrip_append hr ht0
      have hnA : labA.isPrefixOf (labB ++ ' ' :: t) = false := rfl
      have hpre : labB.isPrefixOf (labB ++ ' ' :: t) = true := by
        simp only [List.isPrefixOf_iff_prefix]
        exact labB.prefix_append _
      have hcont' : containsSeq labB (' ' :: t) = false := by
        simp only [containsSeq, Bool.or_eq_false_iff]
        refine ⟨rfl, ?_⟩
        rw [show labB = strB ++ [':'] from rfl]
        exact hcont
      have hrepl : replaceAll labB [] (labB ++ ' ' :: t) = ' ' :: t := by
        rw [replaceAll_append_self (by decide), replaceAll_of_not_contains hcont']
        rfl
      unfold parse_script
      rw [splitOnChar_of_not_mem hnotmem,
        parseLoop_stepB (by rw [hstr]; simp) (by rw [hstr]; exact hnA)
          (by rw [hstr]; exact hpre),
        hstr, hrepl, strip_cons_space hl hr]
      simp [parseLoop, emitSeg, joinSp]

theorem c8_roundtrip_witness :
    parse_script (strA ++ ':' :: ' ' :: "hello there".data) =
      [(strA, "hello there".data)] :=
  c8_roundtrip strA ("hello there".data) (Or.inl rfl) (by decide) (by decide) (by decide)

/- ------------------------------------------------------------------ -/
/- Per-Segment Synthesizer: `text_to_speech_elevenlabs`,               -/
/- `text_to_speech_openai` and `generate_audio_for_segments` from      -/
/- `synthetic_radio_host.py`.  The remote TTS endpoints are modelled   -/
/- as oracles giving, for each loop index, the outcome of the call     -/
/- made at that iteration (returned MP3 bytes, or the raised error).   -/
/- ------------------------------------------------------------------ -/

/-- Outcome oracles and credential state for a synthesis run.
`elevenKey` is `ELEVENLABS_API_KEY` (none = unset); `openaiKey` stands for
the OpenAI client (none = no `OPENAI_API_KEY`, so `get_openai_client()`
returns `None`).  `ttsE i voice text` / `ttsO i voice text` give the result
of the remote call performed at loop index `i` with the given voice and
text: `ok bytes` for a returned payload, `error msg` for a raised
exception. -/
structure TTSEnv where
  elevenKey : Option Str
  openaiKey : Option Str
  ttsE : Nat → Str → Str → Except Str (List Nat)
  ttsO : Nat → Str → Str → Except Str (List Nat)

/-- The non-oracle arguments of `generate_audio_for_segments`
(`use_elevenlabs`, `voice_a_id`, `voice_b_id`, `openai_voice_a`,
`openai_voice_b`; the source's defaults are `True`, `"21m00Tcm4TlvDq8ikWAM"`,
`"pNInz6obpgDQGcFmaJgB"`, `"nova"`, `"onyx"`). -/
structure GenCtx where
  env : TTSEnv
  useElevenlabs : Bool
  voiceA : Str
  voiceB : Str
  openaiVoiceA : Str
  openaiVoiceB : Str

/-- `text_to_speech_elevenlabs`: raises `ValueError` when no API key is
configured, before any network activity; otherwise its observable behaviour
(HTTP call, status check, SDK fallback chain) is the oracle's outcome for
this call — bytes returned or an exception raised. -/
def text_to_speech_elevenlabs (apiKey : Option Str) (call : Except Str (List Nat)) :
    Except Str (List Nat) :=
  match apiKey with
  | none => .error
      ("ElevenLabs API key not set. Please set ELEVENLABS_API_KEY in .env file".data)
  | some _ => call

/-- `text_to_speech_openai`: raises `ValueError` when the client could not
be initialized; a failing API call is caught inside and surfaces as a
returned `None` (here `ok none`); success returns the bytes. -/
def text_to_speech_openai (client : Option Str) (call : Except Str (List Nat)) :
    Except Str (Option (List Nat)) :=
  match client with
  | none => .error
      ("OpenAI client not initialized. Please set OPENAI_API_KEY in .env file".data)
  | some _ =>
    match call with
    | .ok b => .ok (some b)
    | .error _ => .ok none

/-- `dialogue.replace("[laughs]", "").replace("[laugh]", "").strip()`. -/
def cleanDialogue (d : Str) : Str :=
  strip (replaceAll ("[laugh]".data) [] (replaceAll ("[laughs]".data) [] d))

/-- The voice selection `voice_a if speaker == "Person A" else voice_b`
(and identically for the OpenAI voice names). -/
def chooseVoice (va vb : Str) (speaker : Str) : Str :=
  if speaker = strA then va else vb

/-- What one iteration of the `generate_audio_for_segments` loop does with
segment `seg` at index `i`: skip it (empty cleaned text, no attempt made),
append its audio to the successes, or record index `i+1` as failed (raised
exception, `None` result, or empty bytes). -/
inductive SegOutcome
  | skipped
  | succeeded (b : List Nat)
  | failed
deriving DecidableEq

/-- The body of the `for i, (speaker, dialogue) in enumerate(segments)` loop
of `generate_audio_for_segments`. -/
def segOutcome (ctx : GenCtx) (i : Nat) (seg : Str × Str) : SegOutcome :=
  let clean := cleanDialogue seg.2
  if clean = [] then .skipped
  else
    let attempt : Except Str (Option (List Nat)) :=
      if ctx.useElevenlabs then
        match text_to_speech_elevenlabs ctx.env.elevenKey
            (ctx.env.ttsE i (chooseVoice ctx.voiceA ctx.voiceB seg.1) clean) with
        | .ok b => .ok (some b)
        | .error e => .error e
      else
        text_to_speech_openai ctx.env.openaiKey
          (ctx.env.ttsO i (chooseVoice ctx.openaiVoiceA ctx.openaiVoiceB seg.1) clean)
    match attempt with
    | .ok (some b) => if b = [] then .failed else .succeeded b
    | .ok none => .failed
    | .error _ => .failed

/-- The loop of `generate_audio_for_segments`, with its accumulators
(`audio_segments`, `failed_segments`) passed explicitly. -/
def genLoop (ctx : GenCtx) : Nat → List (List Nat) → List Nat → List (Str × Str) →
    List (List Nat) × List Nat
  | _, clips, failed, [] => (clips, failed)
  | i, clips, failed, seg :: rest =>
    match segOutcome ctx i seg with
    | .skipped => genLoop ctx (i + 1) clips failed rest
    | .succeeded b => genLoop ctx (i + 1) (clips ++ [b]) failed rest
    | .failed => genLoop ctx (i + 1) clips (failed ++ [i + 1]) rest

/-- The errors `generate_audio_for_segments` can be claimed to raise: the
`Exception("All audio segments failed to generate. Failed segments: ...")`
the source raises when no clip was produced (carrying the 1-based failed
indices), and the spec's `CredentialMissingError` (named here so the claim
about an eager credential abort is statable; the source never raises it at
this level). -/
inductive GenErr
  | allSegmentsFailed (failed : List Nat)
  | credentialMissing
deriving DecidableEq

/-- `generate_audio_for_segments` from `synthetic_radio_host.py`. -/
def generate_audio_for_segments (ctx : GenCtx) (segments : List (Str × Str)) :
    Except GenErr (List (List Nat)) :=
  let r := genLoop ctx 0 [] [] segments
  if r.1 = [] then .error (.allSegmentsFailed r.2) else .ok r.1

/-- Spec-side closed form: the audio payloads of the successful attempts,
in original segment order (0-based index `i` tracks the position). -/
def successFrom (ctx : GenCtx) : Nat → List (Str × Str) → List (List Nat)
  | _, [] => []
  | i, seg :: rest =>
    match segOutcome ctx i seg with
    | .succeeded b => b :: successFrom ctx (i + 1) rest
    | _ => successFrom ctx (i + 1) rest

/-- Spec-side closed form: the 1-based indices of the failed attempts, in
original segment order. -/
def failedFrom (ctx : GenCtx) : Nat → List (Str × Str) → List Nat
  | _, [] => []
  | i, seg :: rest =>
    match segOutcome ctx i seg with
    | .failed => (i + 1) :: failedFrom ctx (i + 1) rest
    | _ => failedFrom ctx (i + 1) rest

theorem genLoop_eq (ctx : GenCtx) :
    ∀ (segs : List (Str × Str)) (i : Nat) (clips : List (List Nat)) (failed : List Nat),
      genLoop ctx i clips failed segs =
        (clips ++ successFrom ctx i segs, failed ++ failedFrom ctx i segs) := by
  intro segs
  induction segs with
  | nil => intro i clips failed; simp [genLoop, successFrom, failedFrom]
  | cons seg rest ih =>
    intro i clips failed
    simp only [genLoop, successFrom, failedFrom]
    cases h : segOutcome ctx i seg with
    | skipped => simp [genLoop, h, ih]
    | succeeded b => simp [genLoop, h, ih]
    | failed => simp [genLoop, h, ih]

/-- Concrete run used by claim C1: five non-empty segments where the TTS
oracle fails exactly at loop indices 1 and 3 (segments 2 and 4). -/
def exEnv5 : TTSEnv :=
  { elevenKey := some ("k".data), openaiKey := none,
    ttsE := fun i _ _ => if i = 1 ∨ i = 3 then .error ("boom".data) else .ok [i + 1],
    ttsO := fun _ _ _ => .error [] }

def exCtx5 : GenCtx :=
  { env := exEnv5, useElevenlabs := true,
    voiceA := "21m00Tcm4TlvDq8ikWAM".data, voiceB := "pNInz6obpgDQGcFmaJgB".data,
    openaiVoiceA := "nova".data, openaiVoiceB := "onyx".data }

def exSegs5 : List (Str × Str) :=
  [(strA, "one".data), (strB, "two".data), (strA, "three".data),
   (strB, "four".data), (strA, "five".data)]

/-- Claim C1: `generate_audio_for_segments` returns exactly the successful
clips in original segment order (failed indices dropped, not null-padded)
whenever at least one attempt succeeds, and raises the all-segments-failed
error enumerating the 1-based failed indices exactly when no clip was
produced.  The concrete conjunct is the spec's 5-segment example: failures
at segments 2 and 4 yield the three clips of segments 1, 3, 5 in order,
without raising. -/
theorem c1_per_segment_policy :
    (∀ (ctx : GenCtx) (segs : List (Str × Str)),
      generate_audio_for_segments ctx segs =
        if successFrom ctx 0 segs = []
        then .error (.allSegmentsFailed (failedFrom ctx 0 segs))
        else .ok (successFrom ctx 0 segs)) ∧
    generate_audio_for_segments exCtx5 exSegs5 = .ok [[1], [3], [5]] := by
  constructor
  · intro ctx segs
    simp only [generate_audio_for_segments, genLoop_eq, List.nil_append]
  · rfl

theorem segOutcome_no_key (ctx : GenCtx) (hE : ctx.useElevenlabs = true)
    (hkey : ctx.env.elevenKey = none) (i : Nat) (seg : Str × Str)
    (h : cleanDialogue seg.2 ≠ []) :
    segOutcome ctx i seg = .failed := by
  simp [segOutcome, h, hE, hkey, text_to_speech_elevenlabs]

theorem noKey_from (ctx : GenCtx) (hE : ctx.useElevenlabs = true)
    (hkey : ctx.env.elevenKey = none) :
    ∀ segs : List (Str × Str), (∀ seg ∈ segs, cleanDialogue seg.2 ≠ []) → ∀ i : Nat,
      successFrom ctx i segs = [] ∧
      failedFrom ctx i segs = List.range' (i + 1) segs.length := by
  intro segs
  induction segs with
  | nil => intro _ i; simp [successFrom, failedFrom, List.range']
  | cons seg rest ih =>
    intro h i
    have h1 := segOutcome_no_key ctx hE hkey i seg (h seg (List.mem_cons_self seg rest))
    have h2 := ih (fun s hs => h s (List.mem_cons_of_mem seg hs)) (i + 1)
    simp [successFrom, failedFrom, h1, h2.1, h2.2, List.range']

/-- Claim C4 is false as stated: with no ElevenLabs API key configured and
two non-empty segments, `generate_audio_for_segments` does not abort eagerly
with a credential error before the loop; the per-segment handler catches the
key error on each iteration, records both segments as failed, and the call
ends with the all-segments-failed error listing indices 1 and 2. -/
theorem c4_counterexample :
    generate_audio_for_segments
      { env := { elevenKey := none, openaiKey := some ("ok".data),
                 ttsE := fun _ _ _ => .ok [9], ttsO := fun _ _ _ => .ok [9] },
        useElevenlabs := true,
        voiceA := "21m00Tcm4TlvDq8ikWAM".data, voiceB := "pNInz6obpgDQGcFmaJgB".data,
        openaiVoiceA := "nova".data, openaiVoiceB := "onyx".data }
      [(strA, "hi".data), (strB, "yo".data)] =
      .error (.allSegmentsFailed [1, 2]) ∧
    Except.error (GenErr.allSegmentsFailed [1, 2]) ≠
      (Except.error GenErr.credentialMissing : Except GenErr (List (List Nat))) := by
  exact ⟨rfl, by simp⟩

/-- Claim C4 (amended): there is no eager pre-loop credential check.  When
no ElevenLabs API key is configured (on the ElevenLabs path), every
segment's call to `text_to_speech_elevenlabs` raises the missing-key
`ValueError` inside the loop, where it is caught by the per-segment handler
like any other failure; with every non-empty segment failing, the run ends
with the all-segments-failed error listing every 1-based index `1..N`. -/
theorem c4_missing_key (ctx : GenCtx) (segs : List (Str × Str))
    (hE : ctx.useElevenlabs = true) (hkey : ctx.env.elevenKey = none)
    (hclean : ∀ seg ∈ segs, cleanDialogue seg.2 ≠ []) :
    generate_audio_for_segments ctx segs =
      .error (.allSegmentsFailed (List.range' 1 segs.length)) := by
  have h := noKey_from ctx hE hkey segs hclean 0
  simp only [generate_audio_for_segments, genLoop_eq, List.nil_append, h.1, h.2, if_pos]

theorem c4_missing_key_witness :
    generate_audio_for_segments
      { env := { elevenKey := none, openaiKey := none,
                 ttsE := fun _ _ _ => .ok [9], ttsO := fun _ _ _ => .ok [9] },
        useElevenlabs := true,
        voiceA := "a".data, voiceB := "b".data,
        openaiVoiceA := "nova".data, openaiVoiceB := "onyx".data }
      [(strA, "one".data), (strB, "two".data), (strB, "three".data)] =
      .error (.allSegmentsFailed [1, 2, 3]) := by
  rw [c4_missing_key _ _ rfl rfl (by decide)]
  rfl

/-- Claim C10: on the ElevenLabs path a non-skipped segment is synthesized
with `voice_a` exactly when its speaker string is `"Person A"`, and with
`voice_b` for every other speaker string (including `"Person B"` and any
unrecognized speaker); a segment with an unrecognized speaker and non-empty
cleaned text is attempted like any other, never skipped. -/
theorem c10_voice_binding (va vb sp : Str) :
    ((sp = strA → chooseVoice va vb sp = va) ∧
     (sp ≠ strA → chooseVoice va vb sp = vb)) ∧
    (∀ (ctx : GenCtx) (i : Nat) (dlg : Str),
      ctx.useElevenlabs = true →
      cleanDialogue dlg ≠ [] →
      segOutcome ctx i (sp, dlg) =
        (match text_to_speech_elevenlabs ctx.env.elevenKey
            (ctx.env.ttsE i (chooseVoice ctx.voiceA ctx.voiceB sp) (cleanDialogue dlg)) with
         | .ok b => if b = [] then .failed else .succeeded b
         | .error _ => .failed) ∧
      segOutcome ctx i (sp, dlg) ≠ .skipped) := by
  refine ⟨⟨fun h => by simp [chooseVoice, h], fun h => by simp [chooseVoice, h]⟩, ?_⟩
  intro ctx i dlg hE hclean
  have heq : segOutcome ctx i (sp, dlg) =
      (match text_to_speech_elevenlabs ctx.env.elevenKey
          (ctx.env.ttsE i (chooseVoice ctx.voiceA ctx.voiceB sp) (cleanDialogue dlg)) with
       | .ok b => if b = [] then .failed else .succeeded b
       | .error _ => .failed) := by
    simp only [segOutcome, hE, if_true, if_neg hclean]
    cases text_to_speech_elevenlabs ctx.env.elevenKey
        (ctx.env.ttsE i (chooseVoice ctx.voiceA ctx.voiceB sp) (cleanDialogue dlg)) with
    | ok b => rfl
    | error e => rfl
  refine ⟨heq, ?_⟩
  rw [heq]
  cases text_to_speech_elevenlabs ctx.env.elevenKey
      (ctx.env.ttsE i (chooseVoice ctx.voiceA ctx.voiceB sp) (cleanDialogue dlg)) with
  | ok b =>
    by_cases hb : b = [] <;> simp [hb]
  | error e => simp

theorem c10_voice_binding_witness :
    chooseVoice ("vA".data) ("vB".data) ("Narrator".data) = "vB".data ∧
    segOutcome
      { env := { elevenKey := some ("k".data), openaiKey := none,
                 ttsE := fun _ _ _ => .ok [7], ttsO := fun _ _ _ => .error [] },
        useElevenlabs := true,
        voiceA := "vA".data, voiceB := "vB".data,
        openaiVoiceA := "nova".data, openaiVoiceB := "onyx".data }
      0 ("Narrator".data, "hi".data) = .succeeded [7] := by
  constructor
  · exact (c10_voice_binding ("vA".data) ("vB".data) ("Narrator".data)).1.2 (by decide)
  · have h := (c10_voice_binding ("vA".data) ("vB".data) ("Narrator".data)).2
      { env := { elevenKey := some ("k".data), openaiKey := none,
                 ttsE := fun _ _ _ => .ok [7], ttsO := fun _ _ _ => .error [] },
        useElevenlabs := true,
        voiceA := "vA".data, voiceB := "vB".data,
        openaiVoiceA := "nova".data, openaiVoiceB := "onyx".data }
      0 ("hi".data) rfl (by decide)
    rw [h.1]
    rfl

/- ------------------------------------------------------------------ -/
/- Aggregator/Exporter: `combine_and_export_audio` from                -/
/- `synthetic_radio_host.py`.  A decoded pydub `AudioSegment` is       -/
/- modelled as its sample list with one entry per millisecond, so a    -/
/- list's `length` is pydub's `len(seg)` in ms; `AudioSegment.from_mp3`-/
/- is a decode oracle (`none` = the decoder raised) and the two        -/
/- normalization passes are function oracles.                          -/
/- ------------------------------------------------------------------ -/

/-- `AudioSegment.silent(duration=300)`: 300 ms of silence. -/
def silent300 : List Int := List.replicate 300 0

theorem silent300_length : silent300.length = 300 :=
  List.length_replicate 300 0

/-- The `for audio_bytes in audio_segments:` loop inside the try block of
`combine_and_export_audio`: decode each clip, normalize it, and append it
followed by the 300 ms pause to the running concatenation; a decoding
failure raises out of the loop (result `none`), triggering the fallback. -/
def decodeAllLoop (decode : List Nat → Option (List Int))
    (normSeg : List Int → List Int) (acc : List Int) :
    List (List Nat) → Option (List Int)
  | [] => some acc
  | b :: rest =>
    match decode b with
    | none => none
    | some seg => decodeAllLoop decode normSeg (acc ++ normSeg seg ++ silent300) rest

/-- The artifact written by `combine_and_export_audio`: either the
normalized concatenation exported as MP3 (with its sample content), or the
degraded fallback, the raw byte concatenation of the original clips. -/
inductive ExportOutcome
  | norm (filename : Str) (samples : List Int)
  | raw (filename : Str) (bytes : List Nat)
deriving DecidableEq

/-- `combine_and_export_audio` from `synthetic_radio_host.py`: empty input
returns `None` early; otherwise the try block decodes, normalizes and
concatenates with pauses and applies a final normalization pass, and any
failure in it falls back to writing `b''.join(audio_segments)`. -/
def combine_and_export_audio (decode : List Nat → Option (List Int))
    (normSeg normAll : List Int → List Int)
    (audio_segments : List (List Nat)) (output_filename : Str) :
    Option ExportOutcome :=
  if audio_segments = [] then none
  else
    match decodeAllLoop decode normSeg [] audio_segments with
    | some combined => some (.norm output_filename (normAll combined))
    | none => some (.raw output_filename audio_segments.flatten)

/-- The duration the function reports, in seconds: `len(combined_seg)/1000.0`
on the normalization path, and the estimate `len(combined)/10000` on the
fallback path. -/
def reportedDurationSec : ExportOutcome → ℚ
  | .norm _ samples => (samples.length : ℚ) / 1000
  | .raw _ bytes => (bytes.length : ℚ) / 10000

theorem decodeAllLoop_le (decode : List Nat → Option (List Int))
    (normSeg : List Int → List Int) :
    ∀ (l : List (List Nat)) (acc c : List Int),
      decodeAllLoop decode normSeg acc l = some c →
      acc.length ≤ c.length ∧ (l ≠ [] → acc.length + 300 ≤ c.length) := by
  intro l
  induction l with
  | nil =>
    intro acc c h
    simp only [decodeAllLoop, Option.some.injEq] at h
    subst h
    exact ⟨le_rfl, fun h => absurd rfl h⟩
  | cons b rest ih =>
    intro acc c h
    simp only [decodeAllLoop] at h
    cases hd : decode b with
    | none => rw [hd] at h; exact absurd h (by simp)
    | some seg =>
      rw [hd] at h
      have h2 := ih (acc ++ normSeg seg ++ silent300) c h
      have hlen : (acc ++ normSeg seg ++ silent300).length =
          acc.length + (normSeg seg).length + 300 := by
        simp [List.length_append, silent300_length]
        omega
      constructor
      · omega
      · intro _; omega

theorem decodeAllLoop_some (decode : List Nat → Option (List Int))
    (normSeg : List Int → List Int) :
    ∀ (l : List (List Nat)) (acc : List Int), (∀ b ∈ l, (decode b).isSome) →
      decodeAllLoop decode normSeg acc l =
        some (acc ++ (l.map (fun b => normSeg ((decode b).getD []) ++ silent300)).flatten) := by
  intro l
  induction l with
  | nil => intro acc _; simp [decodeAllLoop]
  | cons b rest ih =>
    intro acc h
    obtain ⟨seg, hseg⟩ := Option.isSome_iff_exists.mp (h b (List.mem_cons_self b rest))
    simp only [decodeAllLoop, hseg]
    rw [ih (acc ++ normSeg seg ++ silent300) (fun x hx => h x (List.mem_cons_of_mem b hx))]
    simp [hseg]

/-- Claim C5 is false as stated: `combine_and_export_audio` applied to an
empty clip sequence does not raise `NoAudioToExportError`; it prints a
message and silently returns `None`. -/
theorem c5_counterexample :
    combine_and_export_audio (fun _ => none) (fun x => x) (fun x => x) []
      ("hinglish_conversation.mp3".data) = none := rfl

/-- Claim C5 (amended): on an empty clip sequence the function returns the
null result `None` without raising; on any non-empty sequence of non-empty
clips it produces an output artifact whose reported duration is positive
(the normalization path always contains at least one 300 ms pause, and the
fallback estimate is positive because the concatenated bytes are non-empty;
a whole-track normalization pass is duration-preserving).  The clips the
pipeline feeds in are always non-empty, since `generate_audio_for_segments`
drops empty payloads; a sequence of empty byte strings on the fallback path
would report an estimated duration of 0, so that hypothesis is needed. -/
theorem c5_export_contract (decode : List Nat → Option (List Int))
    (normSeg normAll : List Int → List Int) (fn : Str) :
    combine_and_export_audio decode normSeg normAll [] fn = none ∧
    (∀ clips : List (List Nat), clips ≠ [] → (∀ b ∈ clips, b ≠ []) →
      (∀ x, (normAll x).length = x.length) →
      ∃ out, combine_and_export_audio decode normSeg normAll clips fn = some out ∧
        0 < reportedDurationSec out) := by
  refine ⟨rfl, ?_⟩
  intro clips hne hclips hnorm
  simp only [combine_and_export_audio, if_neg hne]
  cases hd : decodeAllLoop decode normSeg [] clips with
  | some combined =>
    refine ⟨.norm fn (normAll combined), rfl, ?_⟩
    have h300 : 300 ≤ combined.length := by
      have := (decodeAllLoop_le decode normSeg clips [] combined hd).2 hne
      simpa using this
    simp only [reportedDurationSec, hnorm]
    apply div_pos _ (by norm_num)
    exact_mod_cast Nat.lt_of_lt_of_le (by norm_num) h300
  | none =>
    refine ⟨.raw fn clips.flatten, rfl, ?_⟩
    obtain ⟨b, rest, rfl⟩ : ∃ b rest, clips = b :: rest := by
      cases clips with
      | nil => exact absurd rfl hne
      | cons b rest => exact ⟨b, rest, rfl⟩
    have hb : b ≠ [] := hclips b (List.mem_cons_self b rest)
    have hlen : 0 < (b :: rest).flatten.length := by
      simp only [List.flatten_cons, List.length_append]
      have : 0 < b.length := List.length_pos.mpr hb
      omega
    simp only [reportedDurationSec]
    apply div_pos _ (by norm_num)
    exact_mod_cast hlen

theorem c5_export_contract_witness :
    ∃ out,
      combine_and_export_audio (fun b => some (b.map (fun n => (n : Int))))
        (fun x => x) (fun x => x) [[1], [2]] ("o.mp3".data) = some out ∧
      0 < reportedDurationSec out :=
  (c5_export_contract (fun b => some (b.map (fun n => (n : Int))))
    (fun x => x) (fun x => x) ("o.mp3".data)).2 [[1], [2]]
    (by simp) (by decide) (fun x => rfl)

/-- Claim C7 is false as stated: the loop appends the 300 ms pause after
every clip, including the final one, so a single-clip input yields the
normalized clip followed by trailing silence — not the bare clip that an
"N-1 gaps, no silence after the final clip" concatenation would give (with
both normalization passes the identity here). -/
theorem c7_counterexample :
    combine_and_export_audio (fun b => some (b.map (fun n => (n : Int))))
      (fun x => x) (fun x => x) [[3]] ("out.mp3".data) =
      some (.norm ("out.mp3".data) ((3 : Int) :: silent300)) ∧
    (3 : Int) :: silent300 ≠ [(3 : Int)] := by
  constructor
  · rfl
  · intro h
    have := congrArg List.length h
    simp only [List.length_cons, silent300_length, List.length_nil] at this
    omega

/-- Claim C7 (amended): on the normalization path (every clip decodes), the
output is the concatenation of the independently normalized clips each
followed by one fixed 300 ms silence gap — N gaps for N clips, including one
after the final clip — with one final normalization pass applied to the
whole concatenation before export. -/
theorem c7_concat_shape (decode : List Nat → Option (List Int))
    (normSeg normAll : List Int → List Int) (clips : List (List Nat)) (fn : Str)
    (hne : clips ≠ []) (hdec : ∀ b ∈ clips, (decode b).isSome) :
    combine_and_export_audio decode normSeg normAll clips fn =
      some (.norm fn (normAll
        ((clips.map (fun b => normSeg ((decode b).getD []) ++ silent300)).flatten))) := by
  simp only [combine_and_export_audio, if_neg hne,
    decodeAllLoop_some decode normSeg clips [] hdec, List.nil_append]

theorem c7_concat_shape_witness :
    combine_and_export_audio (fun c => some (c.map (fun n => (n : Int))))
      (fun x => x) (fun x => x) [[2], [5]] ("o2.mp3".data) =
      some (.norm ("o2.mp3".data)
        ((([[2], [5]] : List (List Nat)).map
          (fun c => ((fun c2 : List Nat => some (c2.map (fun n => (n : Int)))) c).getD []
            ++ silent300)).flatten)) :=
  c7_concat_shape (fun c => some (c.map (fun n => (n : Int))))
    (fun x => x) (fun x => x) [[2], [5]] ("o2.mp3".data) (by simp) (by decide)

/- ------------------------------------------------------------------ -/
/- `urllib.parse.unquote`: percent-decoding with UTF-8 byte decoding.  -/
/- ------------------------------------------------------------------ -/

/-- Is `b` a UTF-8 continuation byte (`0x80..0xBF`)? -/
def contByte (b : Nat) : Bool := decide (0x80 ≤ b ∧ b < 0xC0)

/-- The Unicode replacement character U+FFFD, produced for malformed
byte sequences (Python decodes percent-encoded byte runs with
`errors='replace'`). -/
def replChar : Char := Char.ofNat 0xFFFD

/-- Fuel-driven kernel of `utf8Decode` (the fuel only serves termination:
it always starts at the byte list's length, which the scan never exceeds,
so the `0` case is unreachable). -/
def utf8DecodeGo : Nat → List Nat → List Char
  | _, [] => []
  | 0, _ => []
  | fuel + 1, b :: rest =>
    if b < 0x80 then Char.ofNat b :: utf8DecodeGo fuel rest
    else if 0xC2 ≤ b ∧ b ≤ 0xDF then
      match rest with
      | b2 :: r2 =>
        if contByte b2 then
          Char.ofNat ((b - 0xC0) * 0x40 + (b2 - 0x80)) :: utf8DecodeGo fuel r2
        else replChar :: utf8DecodeGo fuel rest
      | [] => [replChar]
    else if 0xE0 ≤ b ∧ b ≤ 0xEF then
      match rest with
      | b2 :: b3 :: r3 =>
        if contByte b2 && contByte b3 &&
            !(b = 0xE0 && b2 < 0xA0) && !(b = 0xED && 0xA0 ≤ b2) then
          Char.ofNat ((b - 0xE0) * 0x1000 + (b2 - 0x80) * 0x40 + (b3 - 0x80)) ::
            utf8DecodeGo fuel r3
        else replChar :: utf8DecodeGo fuel rest
      | _ => replChar :: utf8DecodeGo fuel rest
    else if 0xF0 ≤ b ∧ b ≤ 0xF4 then
      match rest with
      | b2 :: b3 :: b4 :: r4 =>
        if contByte b2 && contByte b3 && contByte b4 &&
            !(b = 0xF0 && b2 < 0x90) && !(b = 0xF4 && 0x90 ≤ b2) then
          Char.ofNat ((b - 0xF0) * 0x40000 + (b2 - 0x80) * 0x1000 +
              (b3 - 0x80) * 0x40 + (b4 - 0x80)) :: utf8DecodeGo fuel r4
        else replChar :: utf8DecodeGo fuel rest
      | _ => replChar :: utf8DecodeGo fuel rest
    else replChar :: utf8DecodeGo fuel rest

/-- Decode a UTF-8 byte sequence to characters; a malformed prefix
consumes one byte and yields U+FFFD. -/
def utf8Decode (l : List Nat) : List Char := utf8DecodeGo l.length l

/-- Is `c` a hexadecimal digit accepted by `unquote` (either case)? -/
def isHexDigitPy (c : Char) : Bool :=
  decide (('0' ≤ c ∧ c ≤ '9') ∨ ('a' ≤ c ∧ c ≤ 'f') ∨ ('A' ≤ c ∧ c ≤ 'F'))

/-- Value of a hexadecimal digit. -/
def hexVal (c : Char) : Nat :=
  if '0' ≤ c ∧ c ≤ '9' then c.toNat - '0'.toNat
  else if 'a' ≤ c ∧ c ≤ 'f' then c.toNat - 'a'.toNat + 10
  else c.toNat - 'A'.toNat + 10

/-- Scanner for `unquote`: maximal runs of valid `%XX` escapes are
collected as bytes and UTF-8-decoded together (as CPython does); a `%` not
followed by two hex digits stays literal. -/
def unquoteScan : Str → List Nat → Str
  | [], buf => utf8Decode buf
  | '%' :: h1 :: h2 :: rest, buf =>
    if isHexDigitPy h1 && isHexDigitPy h2 then
      unquoteScan rest (buf ++ [hexVal h1 * 16 + hexVal h2])
    else utf8Decode buf ++ '%' :: unquoteScan (h1 :: h2 :: rest) []
  | c :: rest, buf => utf8Decode buf ++ c :: unquoteScan rest []

/-- `urllib.parse.unquote(s)` (with the default UTF-8 / replace handling). -/
def unquote (s : Str) : Str := unquoteScan s []

/- ------------------------------------------------------------------ -/
/- Paginator: `get_channel_messages` and `get_user_chat_messages` from -/
/- `Teams extractor/teams_message_extractor.py`.  The Graph endpoint   -/
/- is a fetch oracle mapping (URL, params) to the parsed JSON page or  -/
/- to the `RequestException` raised by `raise_for_status` / the        -/
/- network layer.  Records are opaque, modelled as naturals.           -/
/- ------------------------------------------------------------------ -/

/-- The query parameters of the first channel-messages request,
`{"$top": top, "$orderby": "lastModifiedDateTime desc"}`. -/
structure QueryParams where
  top : Nat
  orderby : Str
deriving DecidableEq

/-- One parsed JSON page body: the optional `value` array (absent defaults
to the empty list) and the optional `@odata.nextLink` continuation URL. -/
structure Page where
  value : Option (List Nat)
  nextLink : Option Str
deriving DecidableEq

/-- One paginator run's observables: the record list the function returns,
the GET requests it issued (URL and the `params` argument), and the
`RequestException` its `except` block caught and printed, if any — in both
cases the function returns normally. -/
structure PagResult where
  records : List Nat
  requests : List (Str × Option QueryParams)
  caught : Option Str
deriving DecidableEq

/-- The shared `while url:` loop of `get_channel_messages` and
`get_user_chat_messages`: GET the current URL, extend the accumulator with
the page's `value` (default empty), move to `data.get('@odata.nextLink')`
and set the params to `None`; a raised `RequestException` is caught (and
printed), ending the loop with the partial accumulator.  `fuel` bounds the
iterations — the theorems assume it exceeds the chain length, so the bound
is never hit on the runs they describe. -/
def paginateLoop (fetch : Str → Option QueryParams → Except Str Page) :
    Nat → Option Str → Option QueryParams → List Nat →
    List (Str × Option QueryParams) → PagResult
  | 0, _, _, acc, reqs => ⟨acc, reqs, none⟩
  | _ + 1, none, _, acc, reqs => ⟨acc, reqs, none⟩
  | fuel + 1, some u, params, acc, reqs =>
    if u = [] then ⟨acc, reqs, none⟩
    else
      match fetch u params with
      | .error e => ⟨acc, reqs ++ [(u, params)], some e⟩
      | .ok page =>
        paginateLoop fetch fuel page.nextLink none (acc ++ page.value.getD [])
          (reqs ++ [(u, params)])

/-- `self.base_url`. -/
def base_url : Str := "https://graph.microsoft.com/v1.0".data

/-- The `$orderby` value of the first channel-messages request. -/
def orderbyStr : Str := "lastModifiedDateTime desc".data

/-- The channel-messages URL, after `channel_id = urllib.parse.unquote(channel_id)`:
`f"{self.base_url}/teams/{team_id}/channels/{channel_id}/messages"`. -/
def channelMessagesUrl (team_id channel_id : Str) : Str :=
  base_url ++ "/teams/".data ++ team_id ++ "/channels/".data ++
    unquote channel_id ++ "/messages".data

/-- `get_channel_messages` (default `top = 50`). -/
def get_channel_messages (fetch : Str → Option QueryParams → Except Str Page)
    (fuel : Nat) (team_id channel_id : Str) (top : Nat) : PagResult :=
  paginateLoop fetch fuel (some (channelMessagesUrl team_id channel_id))
    (some ⟨top, orderbyStr⟩) [] []

/-- `f"{self.base_url}/users/{user_id}/chats/getAllMessages"`. -/
def userChatUrl (user_id : Str) : Str :=
  base_url ++ "/users/".data ++ user_id ++ "/chats/getAllMessages".data

/-- `get_user_chat_messages`: same loop, no params on any request. -/
def get_user_chat_messages (fetch : Str → Option QueryParams → Except Str Page)
    (fuel : Nat) (user_id : Str) : PagResult :=
  paginateLoop fetch fuel (some (userChatUrl user_id)) none [] []

/-- `isChain fetch u ps pages` decides that starting a run at URL `u` with
params `ps` the server serves exactly the pages `pages`: each fetch
succeeds with the listed page, each page's `nextLink` is the next page's
URL (fetched with no params), and the last page's `nextLink` is absent. -/
def isChain (fetch : Str → Option QueryParams → Except Str Page) :
    Str → Option QueryParams → List Page → Bool
  | _, _, [] => false
  | u, ps, p :: rest =>
    if u = [] then false
    else
      match fetch u ps with
      | .error _ => false
      | .ok q =>
        if q = p then
          match p.nextLink with
          | none => decide (rest = [])
          | some u2 => !(decide (rest = [])) && isChain fetch u2 none rest
        else false

theorem isChain_nil (fetch : Str → Option QueryParams → Except Str Page)
    (u : Str) (ps : Option QueryParams) : isChain fetch u ps [] = false := rfl

theorem isChain_cons (fetch : Str → Option QueryParams → Except Str Page)
    (u : Str) (ps : Option QueryParams) (p : Page) (rest : List Page) :
    isChain fetch u ps (p :: rest) =
      (if u = [] then false
       else
         match fetch u ps with
         | .error _ => false
         | .ok q =>
           if q = p then
             match p.nextLink with
             | none => decide (rest = [])
             | some u2 => !(decide (rest = [])) && isChain fetch u2 none rest
           else false) := rfl

/-- The requests a run over the chain issues: the start URL with the start
params, then each continuation URL with no params. -/
def chainReqs : Str → Option QueryParams → List Page → List (Str × Option QueryParams)
  | _, _, [] => []
  | u, ps, p :: rest =>
    (u, ps) ::
      (match p.nextLink with
       | some u2 => chainReqs u2 none rest
       | none => [])

theorem chainReqs_none_params :
    ∀ (pages : List Page) (u : Str), ∀ q ∈ chainReqs u none pages, q.2 = none := by
  intro pages
  induction pages with
  | nil => intro u q hq; simp [chainReqs] at hq
  | cons p rest ih =>
    intro u q hq
    simp only [chainReqs] at hq
    rcases List.mem_cons.mp hq with rfl | hmem
    · rfl
    · cases hnl : p.nextLink with
      | some u2 => rw [hnl] at hmem; exact ih u2 q hmem
      | none => rw [hnl] at hmem; simp at hmem

theorem chainReqs_tail_none (u : Str) (ps : Option QueryParams) (pages : List Page) :
    ∀ q ∈ (chainReqs u ps pages).drop 1, q.2 = none := by
  intro q hq
  cases pages with
  | nil => simp [chainReqs] at hq
  | cons p rest =>
    simp only [chainReqs, List.drop_succ_cons, List.drop_zero] at hq
    cases hnl : p.nextLink with
    | some u2 => rw [hnl] at hq; exact chainReqs_none_params rest u2 q hq
    | none => rw [hnl] at hq; simp at hq

theorem paginateLoop_none (fetch : Str → Option QueryParams → Except Str Page)
    (fuel : Nat) (ps : Option QueryParams) (acc : List Nat)
    (reqs : List (Str × Option QueryParams)) :
    paginateLoop fetch fuel none ps acc reqs = ⟨acc, reqs, none⟩ := by
  cases fuel <;> rfl

theorem paginateLoop_chain (fetch : Str → Option QueryParams → Except Str Page) :
    ∀ (pages : List Page) (fuel : Nat) (u : Str) (ps : Option QueryParams)
      (acc : List Nat) (reqs : List (Str × Option QueryParams)),
      isChain fetch u ps pages = true → pages.length ≤ fuel →
      paginateLoop fetch fuel (some u) ps acc reqs =
        ⟨acc ++ (pages.map (fun p => p.value.getD [])).flatten,
         reqs ++ chainReqs u ps pages, none⟩ := by
  intro pages
  induction pages with
  | nil => intro fuel u ps acc reqs hch _; exact Bool.noConfusion hch
  | cons p rest ih =>
    intro fuel u ps acc reqs hch hlen
    cases fuel with
    | zero => simp at hlen
    | succ f =>
      rw [isChain_cons] at hch
      by_cases hu : u = []
      · rw [if_pos hu] at hch; exact absurd hch (by simp)
      · rw [if_neg hu] at hch
        cases hf : fetch u ps with
        | error e =>
          simp only [hf] at hch
          exact Bool.noConfusion hch
        | ok q =>
          simp only [hf] at hch
          by_cases hq : q = p
          · rw [if_pos hq] at hch
            subst hq
            simp only [paginateLoop, if_neg hu, hf]
            cases hnl : q.nextLink with
            | none =>
              rw [hnl] at hch
              have hrest : rest = [] := by simpa using hch
              subst hrest
              rw [paginateLoop_none]
              simp [chainReqs, hnl]
            | some u2 =>
              rw [hnl] at hch
              simp only [Bool.and_eq_true] at hch
              have hlen' : rest.length ≤ f := by simp at hlen; omega
              rw [ih f u2 none (acc ++ q.value.getD []) (reqs ++ [(u, ps)]) hch.2 hlen']
              simp [chainReqs, hnl]
          · rw [if_neg hq] at hch
            exact Bool.noConfusion hch

/-- Claim C3: on a run in which every page fetch succeeds,
`get_channel_messages` returns exactly the concatenation, in fetch order,
of the `value` arrays (absent `value` defaulting to empty) of every page
visited; it visits pages strictly following the server's `@odata.nextLink`
until absent, and the first request's query parameters are not resent on
any continuation request (every request after the first carries no
params). -/
theorem c3_paginator_contract (fetch : Str → Option QueryParams → Except Str Page)
    (fuel : Nat) (team_id channel_id : Str) (top : Nat) (pages : List Page)
    (hch : isChain fetch (channelMessagesUrl team_id channel_id)
      (some ⟨top, orderbyStr⟩) pages = true)
    (hfuel : pages.length ≤ fuel) :
    get_channel_messages fetch fuel team_id channel_id top =
      ⟨(pages.map (fun p => p.value.getD [])).flatten,
       chainReqs (channelMessagesUrl team_id channel_id) (some ⟨top, orderbyStr⟩) pages,
       none⟩ ∧
    ∀ q ∈ (chainReqs (channelMessagesUrl team_id channel_id)
        (some ⟨top, orderbyStr⟩) pages).drop 1, q.2 = none := by
  constructor
  · have h := paginateLoop_chain fetch pages fuel (channelMessagesUrl team_id channel_id)
      (some ⟨top, orderbyStr⟩) [] [] hch hfuel
    simpa [get_channel_messages] using h
  · exact chainReqs_tail_none _ _ pages

/-- Concrete 3-page fetch oracle for the paginator witness: the second page
has no `value` field, exercising the default-empty case. -/
def fetchC3 : Str → Option QueryParams → Except Str Page :=
  fun u ps =>
    if u = channelMessagesUrl ("T1".data) ("C1".data) ∧ ps = some ⟨50, orderbyStr⟩ then
      .ok ⟨some [10, 11], some ("next1".data)⟩
    else if u = "next1".data ∧ ps = none then
      .ok ⟨none, some ("next2".data)⟩
    else if u = "next2".data ∧ ps = none then
      .ok ⟨some [12], none⟩
    else .error ("unexpected".data)

/-- The pages `fetchC3` serves. -/
def pagesC3 : List Page :=
  [⟨some [10, 11], some ("next1".data)⟩, ⟨none, some ("next2".data)⟩,
   ⟨some [12], none⟩]

theorem c3_paginator_contract_witness :
    (get_channel_messages fetchC3 5 ("T1".data) ("C1".data) 50 =
      ⟨(pagesC3.map (fun p => p.value.getD [])).flatten,
       chainReqs (channelMessagesUrl ("T1".data) ("C1".data)) (some ⟨50, orderbyStr⟩) pagesC3,
       none⟩) ∧
    ∀ q ∈ (chainReqs (channelMessagesUrl ("T1".data) ("C1".data))
        (some ⟨50, orderbyStr⟩) pagesC3).drop 1, q.2 = none :=
  c3_paginator_contract fetchC3 5 ("T1".data) ("C1".data) 50 pagesC3
    (by decide) (by decide)

/-- Claim C2 is false as stated: a failing second page does not abort the
run or propagate an error; the exception is caught inside the paginator,
which returns normally with the non-empty partial result of page 1. -/
def fetchC2 : Str → Option QueryParams → Except Str Page :=
  fun u _ =>
    if u = userChatUrl ("me".data) then .ok ⟨some [10, 11], some ("p2".data)⟩
    else .error ("500 Server Error".data)

theorem c2_counterexample :
    get_user_chat_messages fetchC2 5 ("me".data) =
      ⟨[10, 11], [(userChatUrl ("me".data), none), ("p2".data, none)],
       some ("500 Server Error".data)⟩ ∧
    [10, 11] ≠ ([] : List Nat) := by
  exact ⟨rfl, by simp⟩

/-- `isFailChain fetch u ps pages e` decides that the run fetches the pages
`pages` successfully and then the next request (to the last `nextLink`)
fails with the error `e`. -/
def isFailChain (fetch : Str → Option QueryParams → Except Str Page) :
    Str → Option QueryParams → List Page → Str → Bool
  | u, ps, [], e =>
    if u = [] then false
    else
      match fetch u ps with
      | .error e2 => decide (e2 = e)
      | .ok _ => false
  | u, ps, p :: rest, e =>
    if u = [] then false
    else
      match fetch u ps with
      | .error _ => false
      | .ok q =>
        if q = p then
          match p.nextLink with
          | some u2 => isFailChain fetch u2 none rest e
          | none => false
        else false

theorem isFailChain_nil (fetch : Str → Option QueryParams → Except Str Page)
    (u : Str) (ps : Option QueryParams) (e : Str) :
    isFailChain fetch u ps [] e =
      (if u = [] then false
       else
         match fetch u ps with
         | .error e2 => decide (e2 = e)
         | .ok _ => false) := rfl

theorem isFailChain_cons (fetch : Str → Option QueryParams → Except Str Page)
    (u : Str) (ps : Option QueryParams) (p : Page) (rest : List Page) (e : Str) :
    isFailChain fetch u ps (p :: rest) e =
      (if u = [] then false
       else
         match fetch u ps with
         | .error _ => false
         | .ok q =>
           if q = p then
             match p.nextLink with
             | some u2 => isFailChain fetch u2 none rest e
             | none => false
           else false) := rfl

/-- The requests issued on a failing run: all successful pages' requests
plus the final failing one. -/
def chainReqsF : Str → Option QueryParams → List Page → List (Str × Option QueryParams)
  | u, ps, [] => [(u, ps)]
  | u, ps, p :: rest =>
    (u, ps) ::
      (match p.nextLink with
       | some u2 => chainReqsF u2 none rest
       | none => [])

theorem paginateLoop_failChain (fetch : Str → Option QueryParams → Except Str Page) :
    ∀ (pages : List Page) (fuel : Nat) (u : Str) (ps : Option QueryParams)
      (acc : List Nat) (reqs : List (Str × Option QueryParams)) (e : Str),
      isFailChain fetch u ps pages e = true → pages.length < fuel →
      paginateLoop fetch fuel (some u) ps acc reqs =
        ⟨acc ++ (pages.map (fun p => p.value.getD [])).flatten,
         reqs ++ chainReqsF u ps pages, some e⟩ := by
  intro pages
  induction pages with
  | nil =>
    intro fuel u ps acc reqs e hch hlen
    cases fuel with
    | zero => simp at hlen
    | succ f =>
      rw [isFailChain_nil] at hch
      by_cases hu : u = []
      · rw [if_pos hu] at hch; exact absurd hch (by simp)
      · rw [if_neg hu] at hch
        cases hf : fetch u ps with
        | error e2 =>
          simp only [hf] at hch
          have he : e2 = e := by simpa using hch
          subst he
          simp [paginateLoop, if_neg hu, hf, chainReqsF]
        | ok q =>
          simp only [hf] at hch
          exact Bool.noConfusion hch
  | cons p rest ih =>
    intro fuel u ps acc reqs e hch hlen
    cases fuel with
    | zero => simp at hlen
    | succ f =>
      rw [isFailChain_cons] at hch
      by_cases hu : u = []
      · rw [if_pos hu] at hch; exact absurd hch (by simp)
      · rw [if_neg hu] at hch
        cases hf : fetch u ps with
        | error e2 =>
          simp only [hf] at hch
          exact Bool.noConfusion hch
        | ok q =>
          simp only [hf] at hch
          by_cases hq : q = p
          · rw [if_pos hq] at hch
            subst hq
            simp only [paginateLoop, if_neg hu, hf]
            cases hnl : q.nextLink with
            | none =>
              rw [hnl] at hch
              exact Bool.noConfusion hch
            | some u2 =>
              rw [hnl] at hch
              have hlen' : rest.length < f := by simp at hlen; omega
              rw [ih f u2 none (acc ++ q.value.getD []) (reqs ++ [(u, ps)]) e hch hlen']
              simp [chainReqsF, hnl]
          · rw [if_neg hq] at hch
            exact Bool.noConfusion hch

/-- Claim C2 (amended): a non-success HTTP status or network failure on any
page stops pagination at that page, but the exception is caught inside the
paginator (and printed); the records accumulated from the pages already
fetched are returned normally to the caller, and no error propagates.  Both
`get_channel_messages` and `get_user_chat_messages` are this loop started
at their respective URLs (with params only on the channel run's first
request). -/
theorem c2_error_swallowed (fetch : Str → Option QueryParams → Except Str Page)
    (fuel : Nat) (u : Str) (ps : Option QueryParams) (pages : List Page) (e : Str)
    (hch : isFailChain fetch u ps pages e = true) (hfuel : pages.length < fuel) :
    paginateLoop fetch fuel (some u) ps [] [] =
      ⟨(pages.map (fun p => p.value.getD [])).flatten, chainReqsF u ps pages, some e⟩ ∧
    (∀ (team_id channel_id : Str) (top : Nat),
      get_channel_messages fetch fuel team_id channel_id top =
        paginateLoop fetch fuel (some (channelMessagesUrl team_id channel_id))
          (some ⟨top, orderbyStr⟩) [] []) ∧
    (∀ user_id : Str,
      get_user_chat_messages fetch fuel user_id =
        paginateLoop fetch fuel (some (userChatUrl user_id)) none [] []) := by
  refine ⟨?_, fun _ _ _ => rfl, fun _ => rfl⟩
  have h := paginateLoop_failChain fetch pages fuel u ps [] [] e hch hfuel
  simpa using h

theorem c2_error_swallowed_witness :
    (paginateLoop fetchC2 5 (some (userChatUrl ("me".data))) none [] [] =
      ⟨((([⟨some [10, 11], some ("p2".data)⟩] : List Page).map
          (fun p => p.value.getD [])).flatten),
       chainReqsF (userChatUrl ("me".data)) none
         [⟨some [10, 11], some ("p2".data)⟩],
       some ("500 Server Error".data)⟩) ∧
    (∀ (team_id channel_id : Str) (top : Nat),
      get_channel_messages fetchC2 5 team_id channel_id top =
        paginateLoop fetchC2 5 (some (channelMessagesUrl team_id channel_id))
          (some ⟨top, orderbyStr⟩) [] []) ∧
    (∀ user_id : Str,
      get_user_chat_messages fetchC2 5 user_id =
        paginateLoop fetchC2 5 (some (userChatUrl user_id)) none [] []) :=
  c2_error_swallowed fetchC2 5 (userChatUrl ("me".data)) none
    [⟨some [10, 11], some ("p2".data)⟩] ("500 Server Error".data)
    (by decide) (by decide)

/- ------------------------------------------------------------------ -/
/- URL Parser: `parse_channel_url` from                                -/
/- `Teams extractor/teams_message_extractor.py`, built on the needed   -/
/- subset of `urllib.parse.urlparse` / `parse_qs` (only the path and   -/
/- query components are consumed).                                     -/
/- ------------------------------------------------------------------ -/

/-- `urlsplit` first removes every tab, carriage return and newline. -/
def removeTabsCrLf (s : Str) : Str :=
  s.filter (fun c => decide (c ≠ '\t' ∧ c ≠ '\r' ∧ c ≠ '\n'))

/-- Characters allowed in a URL scheme (letters, digits, `+`, `-`, `.`). -/
def isSchemeChar (c : Char) : Bool :=
  c.isAlpha || c.isDigit || decide (c = '+' ∨ c = '-' ∨ c = '.')

/-- Strip a leading `scheme:` when the text before the first `:` is a
non-empty run of scheme characters (the scheme itself is not consumed by
`parse_channel_url`, so it is dropped). -/
def splitScheme (s : Str) : Str :=
  match splitFirst ':' s with
  | (before, some after) =>
    if before ≠ [] ∧ before.all isSchemeChar then after else s
  | (_, none) => s

/-- Strip a leading `//netloc`: everything after `//` up to the first of
`/`, `?`, `#` is the netloc. -/
def dropNetloc (s : Str) : Str :=
  match s with
  | '/' :: '/' :: rest =>
    rest.dropWhile (fun c => decide (c ≠ '/' ∧ c ≠ '?' ∧ c ≠ '#'))
  | _ => s

/-- Cut the fragment: everything from the first `#` on. -/
def splitFragment (s : Str) : Str := (splitFirst '#' s).1

/-- Split off the query at the first `?` (empty when there is none). -/
def splitQuery (s : Str) : Str × Str :=
  match splitFirst '?' s with
  | (before, some q) => (before, q)
  | (before, none) => (before, [])

/-- Split at the last occurrence of `c`, returning the parts before and
after it. -/
def splitLast (c : Char) (s : Str) : Option (Str × Str) :=
  match splitFirst c s.reverse with
  | (a, some b) => some (b.reverse, a.reverse)
  | (_, none) => none

/-- `urlparse`'s `_splitparams`: drop a `;params` suffix of the last path
segment, if present. -/
def splitparams (p : Str) : Str :=
  match splitLast '/' p with
  | some (before, lastSeg) =>
    match splitFirst ';' lastSeg with
    | (pre, some _) => before ++ '/' :: pre
    | (_, none) => p
  | none =>
    match splitFirst ';' p with
    | (pre, some _) => pre
    | (_, none) => p

/-- The `path` and `query` attributes of `urllib.parse.urlparse(url)`. -/
structure UrlParts where
  path : Str
  query : Str

/-- The subset of `urlparse` that `parse_channel_url` consumes: remove
unsafe bytes, strip `scheme:`, strip `//netloc`, cut the fragment at the
first `#`, split the query at the first `?`, and split `;params` off the
last path segment. -/
def urlparsePathQuery (url : Str) : UrlParts :=
  let u1 := splitScheme (removeTabsCrLf url)
  let u2 := dropNetloc u1
  let u3 := splitFragment u2
  let pq := splitQuery u3
  ⟨splitparams pq.1, pq.2⟩

/-- `'+'` is decoded to a space in query fields before percent-decoding. -/
def plusToSpace (s : Str) : Str := s.map (fun c => if c = '+' then ' ' else c)

/-- `urllib.parse.parse_qs` with default arguments, as the ordered list of
(name, value) pairs: split on `&`, skip empty chunks, skip chunks without
`=` and chunks with an empty value (blank values are not kept), and decode
`+` and percent-escapes in both name and value. -/
def qslOf (qs : Str) : List (Str × Str) :=
  (splitOnChar '&' qs).filterMap (fun nv =>
    if nv = [] then none
    else
      match splitFirst '=' nv with
      | (_, none) => none
      | (n, some v) =>
        if v = [] then none
        else some (unquote (plusToSpace n), unquote (plusToSpace v)))

/-- `params.get(key, [None])[0]`: the first value bound to `key`, if any. -/
def qsGet (pairs : List (Str × Str)) (k : Str) : Option Str :=
  match pairs.filter (fun pr => decide (pr.1 = k)) with
  | [] => none
  | pr :: _ => some pr.2

/-- The record `parse_channel_url` returns: each field is `None` when not
present in the input. -/
structure ChannelInfo where
  groupId : Option Str
  tenantId : Option Str
  channelId : Option Str
deriving DecidableEq

/-- `parse_channel_url` from `teams_message_extractor.py`: `groupId` and
`tenantId` come from the query string; `channelId` is the percent-decoded
path segment right after the first path segment equal to `channel`. -/
def parse_channel_url (url : Str) : ChannelInfo :=
  let parts := urlparsePathQuery url
  let params := qslOf parts.query
  let group_id := qsGet params ("groupId".data)
  let tenant_id := qsGet params ("tenantId".data)
  let path_parts := splitOnChar '/' parts.path
  let channel_id :=
    match path_parts.findIdx? (fun seg => decide (seg = "channel".data)) with
    | some idx =>
      match path_parts.get? (idx + 1) with
      | some nxt => some (unquote nxt)
      | none => none
    | none => none
  ⟨group_id, tenant_id, channel_id⟩

theorem qsGet_of_no_key {pairs : List (Str × Str)} {k : Str}
    (h : ∀ pr ∈ pairs, pr.1 ≠ k) : qsGet pairs k = none := by
  have hf : pairs.filter (fun pr => decide (pr.1 = k)) = [] := by
    rw [List.filter_eq_nil_iff]
    intro pr hpr
    simp [h pr hpr]
  simp [qsGet, hf]

/-- Claim C9: `parse_channel_url` returns a record with all three fields
(`groupId`, `tenantId`, `channelId`); it is a total function (it never
raises for a parsable URL), and each individual field is `None` when its
source is not present in the input — in particular a URL whose query
carries no `tenantId` parameter yields `tenantId = None` without raising. -/
theorem c9_url_parser_fields (url : Str) :
    ((∀ pr ∈ qslOf (urlparsePathQuery url).query, pr.1 ≠ "groupId".data) →
      (parse_channel_url url).groupId = none) ∧
    ((∀ pr ∈ qslOf (urlparsePathQuery url).query, pr.1 ≠ "tenantId".data) →
      (parse_channel_url url).tenantId = none) ∧
    ((splitOnChar '/' (urlparsePathQuery url).path).findIdx?
        (fun seg => decide (seg = "channel".data)) = none →
      (parse_channel_url url).channelId = none) := by
  refine ⟨fun h => ?_, fun h => ?_, fun h => ?_⟩
  · simp [parse_channel_url, qsGet_of_no_key h]
  · simp [parse_channel_url, qsGet_of_no_key h]
  · simp [parse_channel_url, h]

/-- The Teams deep link from the extractor's `main()`, with the `tenantId`
query parameter removed. -/
def exUrl9 : Str :=
  ("https://teams.microsoft.com/l/channel/19%3Af285e28086ef475b82c85ef3592d0457%40thread.tacv2/DS_Design_SUPPORT?groupId=68e2d0f4-c57f-4d35-88fd-d4a80d670031").data

theorem c9_url_parser_fields_witness :
    (parse_channel_url exUrl9).tenantId = none ∧
    parse_channel_url exUrl9 =
      ⟨some ("68e2d0f4-c57f-4d35-88fd-d4a80d670031".data), none,
       some ("19:f285e28086ef475b82c85ef3592d0457@thread.tacv2".data)⟩ :=
  ⟨(c9_url_parser_fields exUrl9).2.1 (by decide), by decide⟩

end Podcast
